import Mathlib

/-!
Verification of `src/main/python/sentence_corruption/lexical_substitution.py`
(`WordReplacer` and the `__main__` driver), a shallow embedding in Lean 4.

The repository ships only `lexical_substitution.py`; the `DataIndexer`
collaborator (`index_data.py`) is not part of the sources, so its operations
(`index_data`, `factor_target_indices`, `unfactor_probabilities`) are modelled
from the specification, as marked in the doc comments below.  Everything else
is translated directly from the Python source.
-/

namespace LexSub

/-! ## Factored (mixed-radix) vocabulary encoding -/

/-- Modelled from the spec: the digit sequence produced by
`DataIndexer.factor_target_indices` (missing `index_data.py`) for one target
id.  A word id `v` is re-expressed as `num_factors` digits in base
`factor_base`, least-significant first, so that `id = sum(digit_i * base^i)`.
`factorDigits base k v` returns the `k` digits of `v`. -/
def factorDigits (base : Nat) : Nat → Nat → List Nat
  | 0, _ => []
  | k + 1, v => v % base :: factorDigits base k (v / base)

/-- Modelled from the spec: the digit recomposition performed inside
`DataIndexer.unfactor_probabilities` (missing `index_data.py`):
`id = sum(digit_i * base^i)` over a least-significant-first digit list. -/
def unfactorId (base : Nat) : List Nat → Nat
  | [] => 0
  | d :: ds => d + base * unfactorId base ds

theorem factorDigits_length (base k v : Nat) : (factorDigits base k v).length = k := by
  induction k generalizing v with
  | zero => rfl
  | succ k ih => simp [factorDigits, ih]

theorem factorDigits_lt (base k v : Nat) (hb : 1 ≤ base) :
    ∀ d ∈ factorDigits base k v, d < base := by
  induction k generalizing v with
  | zero => intro d hd; simp [factorDigits] at hd
  | succ k ih =>
    intro d hd
    simp only [factorDigits, List.mem_cons] at hd
    rcases hd with h | h
    · subst h; exact Nat.mod_lt _ hb
    · exact ih (v / base) d h

theorem unfactor_factor (base k v : Nat) (hv : v < base ^ k) :
    unfactorId base (factorDigits base k v) = v := by
  induction k generalizing v with
  | zero =>
    simp only [pow_zero, Nat.lt_one_iff] at hv
    simp [hv, factorDigits, unfactorId]
  | succ k ih =>
    have hb : 0 < base := by
      rcases Nat.eq_zero_or_pos base with h0 | h0
      · subst h0
        simp [pow_succ] at hv
      · exact h0
    have hdiv : v / base < base ^ k := by
      rw [Nat.div_lt_iff_lt_mul hb]
      calc v < base ^ (k + 1) := hv
        _ = base ^ k * base := by ring
    simp only [factorDigits, unfactorId, ih (v / base) hdiv]
    exact Nat.mod_add_div v base

theorem unfactor_lt (base k : Nat) (ds : List Nat) (hlen : ds.length = k)
    (hds : ∀ d ∈ ds, d < base) : unfactorId base ds < base ^ k := by
  induction ds generalizing k with
  | nil =>
    subst hlen
    simp [unfactorId]
  | cons d ds ih =>
    subst hlen
    have hd : d < base := hds d (List.mem_cons_self d ds)
    have hrest : unfactorId base ds < base ^ ds.length :=
      ih ds.length rfl (fun x hx => hds x (List.mem_cons_of_mem d hx))
    simp only [unfactorId, List.length_cons, pow_succ]
    calc d + base * unfactorId base ds
        < base + base * unfactorId base ds := by omega
      _ = base * (unfactorId base ds + 1) := by ring
      _ ≤ base * base ^ ds.length := by
          apply Nat.mul_le_mul_left
          omega
      _ = base ^ ds.length * base := by ring

/-! ## Bidirectional RNN width (`train_model`, lines 49-56)

The Python source (Python 2) computes `output_dim=word_dim/2` for both the
forward and the backward recurrent layer with floor division, then
concatenates the two per-timestep outputs. -/

/-- `output_dim` of `forward_rnn` in `train_model`: `word_dim/2` with Python 2
floor division. -/
def forward_rnn_dim (word_dim : Nat) : Nat := word_dim / 2

/-- `output_dim` of `backward_rnn` in `train_model`: `word_dim/2` with
Python 2 floor division. -/
def backward_rnn_dim (word_dim : Nat) : Nat := word_dim / 2

/-- Width of `bidirectional_rnn_out`, the concatenation (`mode='concat'`) of
the forward and backward per-timestep outputs. -/
def bidirectional_rnn_width (word_dim : Nat) : Nat :=
  forward_rnn_dim word_dim + backward_rnn_dim word_dim

/-! ## `process_data` input/target arrays (lines 25-26)

`input_array = indexed_sentences[:,:-1]` and
`target_array = indexed_sentences[:,1:]`. -/

/-- `input_array = indexed_sentences[:,:-1]`: every row with its last column
removed. -/
def input_array (indexed_sentences : List (List Nat)) : List (List Nat) :=
  indexed_sentences.map List.dropLast

/-- `target_array = indexed_sentences[:,1:]`: every row with its first column
removed. -/
def target_array (indexed_sentences : List (List Nat)) : List (List Nat) :=
  indexed_sentences.map (List.drop 1)

/-! ## `__main__` test-phase configuration check (lines 169-172) -/

/-- Outcome of the test phase of `__main__`. -/
inductive TestPhase where
  /-- `args.test_file is None`: no inference is attempted. -/
  | skipped : TestPhase
  /-- `sys.exit(-1)` after printing the usage message; carries the exit
  argument. -/
  | fatalExit (code : Int) : TestPhase
  /-- Inference runs and results go to the given output file. -/
  | runInference (outputFile : String) : TestPhase

/-- Lines 169-172 of `__main__`: if a test file is given but no output file,
print the usage message and `sys.exit(-1)`; otherwise run inference. -/
def testPhase (testFile outputFile : Option String) : TestPhase :=
  match testFile with
  | none => TestPhase.skipped
  | some _ =>
    match outputFile with
    | none => TestPhase.fatalExit (-1)
    | some out => TestPhase.runInference out

/-! ## Sentence indexing and prediction extraction (`get_substitutes`)

`index_data.py` is not among the sources, so the indexing of one sentence is
modelled from the spec; the arithmetic on top of it is from
`get_substitutes` (lines 104, 115-116, 123). -/

/-- Modelled from the spec: `DataIndexer.index_data` on one already-indexed
sentence (missing `index_data.py`): wrap with start/end markers, truncate to
`maxLength`, and left-pad with the padding id 0 to exactly `maxLength`.
Padding on the left is forced by the spec constraint that the padding scheme
match the prediction slicing, which in `get_substitutes` takes the *last*
`prediction_length` entries. -/
def indexSentence (startId endId : Nat) (wordIds : List Nat) (maxLength : Nat) :
    List Nat :=
  List.replicate
      (maxLength - ((startId :: (wordIds ++ [endId])).take maxLength).length) 0 ++
    (startId :: (wordIds ++ [endId])).take maxLength

/-- The true (unpadded, untruncated) length reported by the indexer for a
sentence of `n` words: the `n` word ids plus the start and end markers. -/
def trueLength (wordIds : List Nat) : Nat := wordIds.length + 2

/-- Line 104: `max_train_length = train_sequence_length + 1` (the last word
of each indexed sentence is stripped off by `process_data`). -/
def max_train_length (train_sequence_length : Nat) : Nat :=
  train_sequence_length + 1

/-- Line 115: `sentence_length = min(sentence_length, max_train_length)`. -/
def clampedLength (sentenceLength trainSeqLen : Nat) : Nat :=
  min sentenceLength (max_train_length trainSeqLen)

/-- Line 116: `prediction_length = sentence_length - 1` (after clamping). -/
def predictionLength (sentenceLength trainSeqLen : Nat) : Nat :=
  clampedLength sentenceLength trainSeqLen - 1

/-- Line 123: `predictions[sentence_id][-prediction_length:][location]`.  The
prediction row has `train_sequence_length` entries; the Python slice keeps
the last `prediction_length` of them, so selecting `location` inside the
slice reads absolute position
`train_sequence_length - prediction_length + location` of the row. -/
def extractionIndex (trainSeqLen sentenceLength location : Nat) : Nat :=
  trainSeqLen - predictionLength sentenceLength trainSeqLen + location

/-- The token that the model's prediction at row position `p` is trained to
predict: `process_data` pairs `input_array[:, p]` with
`target_array[:, p] = indexed_sentences[:, p+1]`, so the prediction at `p`
is the next-word distribution for token `p+1` of the indexed sentence. -/
def predictionTarget (indexed : List Nat) (p : Nat) : Option Nat :=
  (indexed.drop 1)[p]?

/-! ## Unfactoring and ranking of substitutes -/

/-- Modelled from the spec: the joint log-probability computed by
`DataIndexer.unfactor_probabilities` (missing `index_data.py`) for candidate
id `v`: the sum over factors of the log-probability of `v`'s digit under that
factor's distribution (independence assumption).  `factorLogProbs` holds, for
each factor, the elementwise log of that factor's `factor_base`-wide
distribution, as exact rationals standing in for floats. -/
def jointLogProb (base : Nat) (factorLogProbs : List (List ℚ)) (v : Nat) : ℚ :=
  ((factorLogProbs.zip (factorDigits base factorLogProbs.length v)).map
    (fun p => p.1.getD p.2 0)).sum

/-- Modelled from the spec: `DataIndexer.unfactor_probabilities` (missing
`index_data.py`): score every candidate id among the
top-`search_space_size` most frequent vocabulary ids (`candidates` lists the
vocabulary ids with their words, most frequent first) by its joint digit
log-probability and return the `(log-probability, word)` pairs sorted
descending by score. -/
def unfactor_probabilities (base : Nat) (factorLogProbs : List (List ℚ))
    (candidates : List (Nat × String)) (search_space_size : Nat) :
    List (ℚ × String) :=
  ((candidates.take search_space_size).map
    (fun c => (jointLogProb base factorLogProbs c.1, c.2))).mergeSort
    (fun a b => decide (b.1 ≤ a.1))

/-- Lines 125-127 of `get_substitutes`: rank the candidates for one
(sentence, location) query and keep `sorted_substitutes[:num_substitutes]`. -/
def get_substitutes_row (base : Nat) (factorLogProbs : List (List ℚ))
    (candidates : List (Nat × String)) (search_space_size num_substitutes : Nat) :
    List (ℚ × String) :=
  (unfactor_probabilities base factorLogProbs candidates search_space_size).take
    num_substitutes

/-! ## Out-of-vocabulary lookup -/

/-- Modelled from the spec: the inference-time word lookup inside
`DataIndexer.index_data` (missing `index_data.py`): outside training mode no
new ids are assigned and an unseen word maps to the reserved unknown-word id. -/
def lookupWordId (vocab : List (String × Nat)) (oovId : Nat) (w : String) : Nat :=
  match vocab.lookup w with
  | some i => i
  | none => oovId

/-! ## `__main__` test loop (lines 179-206) -/

/-- The stop-word set of lines 179-180. -/
def words_to_ignore : List String :=
  ["<s>", "</s>", "PADDING", ".", ",", "of", "in", "by", "the", "to", "and",
   "is", "a"]

/-- Membership in the stop-word set. -/
def isStopWord (w : String) : Bool := words_to_ignore.contains w

/-- Line 182: a sentence is skipped when
`len(set(words).difference(words_to_ignore)) == 0`; it passes the filter
when some word is not a stop word. -/
def passesFilter (words : List String) : Bool :=
  words.any (fun w => !(isStopWord w))

/-- Lines 181-191: the token lists that survive the stop-word filter (the
sentences for which a location is drawn and substitutes are requested). -/
def filteredSentences (testSentenceWords : List (List String)) :
    List (List String) :=
  testSentenceWords.filter passesFilter

/-- One run of the rejection-sampling loop of lines 187-189 over an explicit
stream of random draws (each draw plays one `random.randint(0, len(words)-2)`
result): the loop ends at the first draw landing on a non-stop word. -/
def sampleLoop (words : List String) : List Nat → Option Nat
  | [] => none
  | d :: ds =>
    if isStopWord (words.getD d "") then sampleLoop words ds else some d

/-- The draws the loop of lines 187-189 can accept:
`random.randint(0, len(words) - 2)` yields `d ≤ len(words) - 2`, and the loop
exits only when `words[d]` is not a stop word. -/
def eligiblePositions (words : List String) : List Nat :=
  (List.range (words.length - 1)).filter (fun d => !(isStopWord (words.getD d "")))

/-- `" ".join(words)`. -/
def joinWords (ws : List String) : String := String.intercalate " " ws

/-- Lines 201-206: scan the ranked substitutes in order and take the first
one that is neither a stop word nor the word being replaced. -/
def firstEligibleSubstitute (subs : List (ℚ × String))
    (wordBeingReplaced : String) : Option String :=
  (subs.find? (fun p => !(isStopWord p.2 || p.2 == wordBeingReplaced))).map
    Prod.snd

/-- Lines 198-206 of `__main__`: zip the per-query substitute lists with
`test_sentence_words` (the *unfiltered* token lists) and the drawn locations,
and emit one `(original_sentence, corrupted_sentence)` pair per zipped triple
whose substitute list contains an eligible entry. -/
def outputLines :
    List (List (ℚ × String)) → List (List String) → List Nat →
    List (String × String)
  | subs :: restSubs, words :: restWords, location :: restLocs =>
    let rest := outputLines restSubs restWords restLocs
    let wordBeingReplaced := words.getD location ""
    match firstEligibleSubstitute subs wordBeingReplaced with
    | some substitute =>
      (joinWords words, joinWords (words.set location substitute)) :: rest
    | none => rest
  | _, _, _ => []

/-! ## Helper lemmas -/

theorem indexSentence_length (s e L : Nat) (ws : List Nat) :
    (indexSentence s e ws L).length = L := by
  unfold indexSentence
  simp only [List.length_append, List.length_replicate, List.length_take,
    List.length_cons]
  omega

theorem getElem_pad {α : Type} (m j : Nat) (x : α) (l : List α) :
    (List.replicate m x ++ l)[m + j]? = l[j]? := by
  rw [List.getElem?_append_right (by simp)]
  simp

/-! ## Claim theorems -/

/-- **C1.** For every base and digit count `k`, the mixed-radix factoring of
`factor_target_indices` followed by the digit recomposition of
`unfactor_probabilities` recovers every vocabulary id `v < base^k` exactly;
ids `≥ base^k` are not representable: every recomposition of `k` digits
below `base` stays below `base^k`, so (for `base ≥ 1`) factoring then
unfactoring such an id cannot return it. -/
theorem C1_factor_unfactor_roundtrip (base k : Nat) :
    (∀ v, v < base ^ k → unfactorId base (factorDigits base k v) = v) ∧
    (∀ ds : List Nat, ds.length = k → (∀ d ∈ ds, d < base) →
      unfactorId base ds < base ^ k) ∧
    (∀ v, base ^ k ≤ v → 1 ≤ base →
      unfactorId base (factorDigits base k v) ≠ v) := by
  refine ⟨fun v hv => unfactor_factor base k v hv,
    fun ds hlen hds => unfactor_lt base k ds hlen hds, ?_⟩
  intro v hv hb hcontra
  have hlt : unfactorId base (factorDigits base k v) < base ^ k :=
    unfactor_lt base k _ (factorDigits_length base k v)
      (factorDigits_lt base k v hb)
  omega

/-- Witness for C1 at `base = 2`, `k = 3`. -/
theorem C1_factor_unfactor_roundtrip_witness :
    unfactorId 2 (factorDigits 2 3 5) = 5 ∧
    unfactorId 2 (factorDigits 2 3 9) ≠ 9 :=
  ⟨(C1_factor_unfactor_roundtrip 2 3).1 5 (by decide),
   (C1_factor_unfactor_roundtrip 2 3).2.2 9 (by decide) (by decide)⟩

/-- **C2.** Concrete run showing the output loop misaligned: with test
sentences `"the ."` (stop words only) and `"cats eat fish ."`, the filter
keeps only the second sentence, so one substitute list (here, `"dogs"` for
location 0 of `"cats eat fish ."`) is produced — but lines 198-206 zip the
substitutes against the *unfiltered* `test_sentence_words`, printing a line
whose original sentence is the stop-word-only `"the ."` and printing no line
for `"cats eat fish ."`.  Zipping against the filtered sentences, as the
claim describes, would instead produce the correctly paired line. -/
theorem C2_outputLines_misaligned :
    passesFilter ["the", "."] = false ∧
    filteredSentences [["the", "."], ["cats", "eat", "fish", "."]] =
      [["cats", "eat", "fish", "."]] ∧
    outputLines [[((0 : ℚ), "dogs")]]
      [["the", "."], ["cats", "eat", "fish", "."]] [0] =
      [("the .", "dogs .")] ∧
    outputLines [[((0 : ℚ), "dogs")]]
      (filteredSentences [["the", "."], ["cats", "eat", "fish", "."]]) [0] =
      [("cats eat fish .", "dogs eat fish .")] := by
  refine ⟨rfl, rfl, rfl, rfl⟩

/-- **C3.** For a sentence that fits in the training length, the extraction
`predictions[sentence_id][-prediction_length:][location]` reads the
prediction-row position `padding_length + location`: anchored on the true
sentence length, it skips exactly the leading padding, stays inside the
prediction row, and the prediction found there is the one trained to predict
the word at index `location` of the original sentence. -/
theorem C3_extraction_targets_requested_word (T startId endId location : Nat)
    (wordIds : List Nat)
    (htrunc : trueLength wordIds ≤ max_train_length T)
    (hloc : location < wordIds.length) :
    extractionIndex T (trueLength wordIds) location =
      (max_train_length T - trueLength wordIds) + location ∧
    extractionIndex T (trueLength wordIds) location < T ∧
    predictionTarget (indexSentence startId endId wordIds (max_train_length T))
      (extractionIndex T (trueLength wordIds) location) = wordIds[location]? := by
  unfold trueLength max_train_length at htrunc ⊢
  have hpred : predictionLength (wordIds.length + 2) T = wordIds.length + 1 := by
    unfold predictionLength clampedLength max_train_length
    omega
  have hidx : extractionIndex T (wordIds.length + 2) location =
      T - (wordIds.length + 1) + location := by
    rw [extractionIndex, hpred]
  refine ⟨by rw [hidx]; omega, by rw [hidx]; omega, ?_⟩
  rw [hidx]
  unfold indexSentence
  rw [List.take_of_length_le (by
    simp only [List.length_cons, List.length_append, List.length_singleton, List.length_nil]
    omega)]
  unfold predictionTarget
  rw [List.getElem?_drop]
  have harith : 1 + (T - (wordIds.length + 1) + location) =
      (T + 1 - (List.length (startId :: (wordIds ++ [endId])))) +
        (location + 1) := by
    simp only [List.length_cons, List.length_append, List.length_singleton, List.length_nil]
    omega
  rw [harith, getElem_pad]
  rw [List.getElem?_cons_succ, List.getElem?_append_left hloc]

/-- Witness for C3: `T = 5`, sentence `[7, 8, 9]`, location 1. -/
theorem C3_extraction_targets_requested_word_witness :
    trueLength [7, 8, 9] ≤ max_train_length 5 ∧ 1 < [7, 8, 9].length ∧
    extractionIndex 5 (trueLength [7, 8, 9]) 1 =
      (max_train_length 5 - trueLength [7, 8, 9]) + 1 ∧
    extractionIndex 5 (trueLength [7, 8, 9]) 1 < 5 ∧
    predictionTarget (indexSentence 1 2 [7, 8, 9] (max_train_length 5))
      (extractionIndex 5 (trueLength [7, 8, 9]) 1) = [7, 8, 9][1]? :=
  ⟨by decide, by decide,
   C3_extraction_targets_requested_word 5 1 2 1 [7, 8, 9] (by decide) (by decide)⟩

/-- **C4.** For a sentence whose true length exceeds the training length, the
effective length is clamped to `max_train_length` with no error (the indexed
sentence still has exactly `max_train_length` entries), the slice covers the
whole prediction row (`extractionIndex = location`), and for a valid location
the consulted prediction is trained against a token of the kept (untruncated)
prefix — the word at index `location` of the original sentence; no position
of the truncated tail is consulted. -/
theorem C4_truncation_clamps_without_error (T startId endId location : Nat)
    (wordIds : List Nat)
    (htrunc : max_train_length T < trueLength wordIds)
    (hloc : location < T) :
    (indexSentence startId endId wordIds (max_train_length T)).length =
      max_train_length T ∧
    clampedLength (trueLength wordIds) T = max_train_length T ∧
    predictionLength (trueLength wordIds) T = T ∧
    extractionIndex T (trueLength wordIds) location = location ∧
    predictionTarget (indexSentence startId endId wordIds (max_train_length T))
      location = wordIds[location]? := by
  have hlen := indexSentence_length startId endId (max_train_length T) wordIds
  unfold trueLength max_train_length at htrunc ⊢
  have hclamp : clampedLength (wordIds.length + 2) T = T + 1 := by
    unfold clampedLength max_train_length
    omega
  have hpred : predictionLength (wordIds.length + 2) T = T := by
    unfold predictionLength
    rw [hclamp]
    omega
  refine ⟨hlen, hclamp, hpred, ?_, ?_⟩
  · rw [extractionIndex, hpred]
    omega
  · unfold indexSentence predictionTarget
    rw [List.getElem?_drop]
    have hrepl : (T + 1) -
        ((startId :: (wordIds ++ [endId])).take (T + 1)).length = 0 := by
      simp only [List.length_take, List.length_cons, List.length_append,
        List.length_singleton]
      omega
    rw [hrepl]
    simp only [List.replicate_zero, List.nil_append]
    rw [List.getElem?_take_of_lt (by omega)]
    have h1 : 1 + location = location + 1 := by omega
    rw [h1, List.getElem?_cons_succ, List.getElem?_append_left (by omega)]

/-- Witness for C4: `T = 3`, sentence `[7, 8, 9, 10]` (true length 6 > 4),
location 1. -/
theorem C4_truncation_clamps_without_error_witness :
    max_train_length 3 < trueLength [7, 8, 9, 10] ∧ 1 < 3 ∧
    (indexSentence 1 2 [7, 8, 9, 10] (max_train_length 3)).length =
      max_train_length 3 ∧
    clampedLength (trueLength [7, 8, 9, 10]) 3 = max_train_length 3 ∧
    predictionLength (trueLength [7, 8, 9, 10]) 3 = 3 ∧
    extractionIndex 3 (trueLength [7, 8, 9, 10]) 1 = 1 ∧
    predictionTarget (indexSentence 1 2 [7, 8, 9, 10] (max_train_length 3)) 1 =
      [7, 8, 9, 10][1]? :=
  ⟨by decide, by decide,
   C4_truncation_clamps_without_error 3 1 2 1 [7, 8, 9, 10] (by decide) (by decide)⟩

/-- **C5 (counterexample).** At `word_dim = 51` the concatenated
bidirectional width is `51/2 + 51/2 = 50`, not `51`: the claim fails for odd
`word_dim` because `word_dim/2` is floor division. -/
theorem C5_width_counterexample :
    bidirectional_rnn_width 51 = 50 ∧ (50 : Nat) ≠ 51 := by
  exact ⟨rfl, by decide⟩

/-- **C5 (amended).** Both recurrent layers have per-timestep hidden size
`word_dim/2` (floor division), and for *even* `word_dim` the concatenation of
the two directions is exactly `word_dim` wide. -/
theorem C5_width_even (word_dim : Nat) (h : word_dim % 2 = 0) :
    forward_rnn_dim word_dim = word_dim / 2 ∧
    backward_rnn_dim word_dim = word_dim / 2 ∧
    bidirectional_rnn_width word_dim = word_dim := by
  unfold bidirectional_rnn_width forward_rnn_dim backward_rnn_dim
  omega

/-- Witness for C5 (amended) at the default `word_dim = 50`. -/
theorem C5_width_even_witness :
    50 % 2 = 0 ∧ bidirectional_rnn_width 50 = 50 :=
  ⟨by decide, (C5_width_even 50 (by decide)).2.2⟩

/-- **C6.** `unfactor_probabilities` scores exactly the candidates among the
top-`search_space_size` most frequent ids — each returned pair carries the
joint digit log-probability of its candidate, and every such candidate
appears — returns them sorted descending by score, and
`get_substitutes_row` keeps exactly `num_substitutes` of them (provided the
candidate pool is at least that large), still in descending order. -/
theorem C6_substitutes_ranked (base search_space_size num_substitutes : Nat)
    (factorLogProbs : List (List ℚ)) (candidates : List (Nat × String))
    (h : num_substitutes ≤ min search_space_size candidates.length) :
    (∀ p ∈ unfactor_probabilities base factorLogProbs candidates
        search_space_size,
      ∃ c ∈ candidates.take search_space_size,
        p = (jointLogProb base factorLogProbs c.1, c.2)) ∧
    (∀ c ∈ candidates.take search_space_size,
      (jointLogProb base factorLogProbs c.1, c.2) ∈
        unfactor_probabilities base factorLogProbs candidates
          search_space_size) ∧
    (unfactor_probabilities base factorLogProbs candidates
        search_space_size).Pairwise (fun a b => b.1 ≤ a.1) ∧
    (get_substitutes_row base factorLogProbs candidates search_space_size
        num_substitutes).length = num_substitutes ∧
    (get_substitutes_row base factorLogProbs candidates search_space_size
        num_substitutes).Pairwise (fun a b => b.1 ≤ a.1) := by
  have hsorted : (unfactor_probabilities base factorLogProbs candidates
      search_space_size).Pairwise (fun a b : ℚ × String => b.1 ≤ a.1) := by
    have hs : (((candidates.take search_space_size).map
        (fun c => (jointLogProb base factorLogProbs c.1, c.2))).mergeSort
          (fun a b : ℚ × String => decide (b.1 ≤ a.1))).Pairwise
        (fun a b : ℚ × String => decide (b.1 ≤ a.1) = true) :=
      List.sorted_mergeSort
        (fun a b c hab hbc => by
          simp only [decide_eq_true_eq] at *
          exact le_trans hbc hab)
        (fun a b => by
          simp only [Bool.or_eq_true, decide_eq_true_eq]
          exact le_total b.1 a.1)
        ((candidates.take search_space_size).map
          (fun c => (jointLogProb base factorLogProbs c.1, c.2)))
    exact hs.imp (fun hab => by simpa using hab)
  have hlen : (unfactor_probabilities base factorLogProbs candidates
      search_space_size).length = min search_space_size candidates.length := by
    rw [unfactor_probabilities,
      (List.mergeSort_perm _ _).length_eq, List.length_map, List.length_take]
  refine ⟨?_, ?_, hsorted, ?_, ?_⟩
  · intro p hp
    rw [unfactor_probabilities, List.mem_mergeSort, List.mem_map] at hp
    obtain ⟨c, hc, hpc⟩ := hp
    exact ⟨c, hc, hpc.symm⟩
  · intro c hc
    rw [unfactor_probabilities, List.mem_mergeSort, List.mem_map]
    exact ⟨c, hc, rfl⟩
  · rw [get_substitutes_row, List.length_take, hlen]
    omega
  · exact hsorted.sublist (List.take_sublist _ _)

/-- Witness for C6: two factors in base 2, four candidate words, search
space 3, two substitutes requested. -/
theorem C6_substitutes_ranked_witness :
    (2 ≤ min 3 [(0, "cat"), (1, "dog"), (2, "sat"), (3, "ran")].length) ∧
    ((∀ p ∈ unfactor_probabilities 2 [[0, -1], [-2, -3]]
        [(0, "cat"), (1, "dog"), (2, "sat"), (3, "ran")] 3,
      ∃ c ∈ [(0, "cat"), (1, "dog"), (2, "sat"), (3, "ran")].take 3,
        p = (jointLogProb 2 [[0, -1], [-2, -3]] c.1, c.2)) ∧
    (∀ c ∈ [(0, "cat"), (1, "dog"), (2, "sat"), (3, "ran")].take 3,
      (jointLogProb 2 [[0, -1], [-2, -3]] c.1, c.2) ∈
        unfactor_probabilities 2 [[0, -1], [-2, -3]]
          [(0, "cat"), (1, "dog"), (2, "sat"), (3, "ran")] 3) ∧
    (unfactor_probabilities 2 [[0, -1], [-2, -3]]
        [(0, "cat"), (1, "dog"), (2, "sat"), (3, "ran")] 3).Pairwise
      (fun a b => b.1 ≤ a.1) ∧
    (get_substitutes_row 2 [[0, -1], [-2, -3]]
        [(0, "cat"), (1, "dog"), (2, "sat"), (3, "ran")] 3 2).length = 2 ∧
    (get_substitutes_row 2 [[0, -1], [-2, -3]]
        [(0, "cat"), (1, "dog"), (2, "sat"), (3, "ran")] 3 2).Pairwise
      (fun a b => b.1 ≤ a.1)) :=
  ⟨by decide,
   C6_substitutes_ranked 2 3 2 [[0, -1], [-2, -3]]
     [(0, "cat"), (1, "dog"), (2, "sat"), (3, "ran")] (by decide)⟩

/-- **C7.** Whenever a test file is given but no output path, the test phase
of `__main__` reports the missing output path and terminates via
`sys.exit(-1)` — a non-zero exit argument — without reaching inference. -/
theorem C7_missing_output_fatal (testFile : String) :
    testPhase (some testFile) none = TestPhase.fatalExit (-1) ∧
    (-1 : Int) ≠ 0 :=
  ⟨rfl, by decide⟩

/-- Witness for C7 at the concrete test file name `"test.txt"`. -/
theorem C7_missing_output_fatal_witness :
    testPhase (some "test.txt") none = TestPhase.fatalExit (-1) ∧
    (-1 : Int) ≠ 0 :=
  C7_missing_output_fatal "test.txt"

/-- **C8.** At inference time a word absent from the stored vocabulary is
mapped to the reserved unknown-word id; the lookup is total, so it never
raises. -/
theorem C8_oov_maps_to_unknown (vocab : List (String × Nat)) (oovId : Nat)
    (w : String) (h : vocab.lookup w = none) :
    lookupWordId vocab oovId w = oovId := by
  unfold lookupWordId
  rw [h]

/-- Witness for C8: `"dog"` is not in the vocabulary `[("cat", 3)]`. -/
theorem C8_oov_maps_to_unknown_witness :
    ([("cat", 3)].lookup "dog" = none) ∧
    lookupWordId [("cat", 3)] 1 "dog" = 1 :=
  ⟨by decide, C8_oov_maps_to_unknown [("cat", 3)] 1 "dog" (by decide)⟩

/-- **C9.** For a rectangular array of indexed sentences with `L` columns,
`input_array` (columns `0..L-2`) and `target_array` (columns `1..L-1`) both
have exactly `L-1` columns per row, and in every row pair the target at
timestep `t` equals the input at timestep `t+1` (the next word), for every
`t` with `t+1` a valid input column. -/
theorem C9_input_target_shift (rows : List (List Nat)) (L : Nat)
    (hL : ∀ r ∈ rows, r.length = L) :
    (∀ r ∈ input_array rows, r.length = L - 1) ∧
    (∀ r ∈ target_array rows, r.length = L - 1) ∧
    (∀ pr ∈ (input_array rows).zip (target_array rows), ∀ t, t + 1 < L - 1 →
      pr.2[t]? = pr.1[t + 1]?) := by
  refine ⟨?_, ?_, ?_⟩
  · intro r hr
    rw [input_array, List.mem_map] at hr
    obtain ⟨r0, hr0, rfl⟩ := hr
    rw [List.length_dropLast, hL r0 hr0]
  · intro r hr
    rw [target_array, List.mem_map] at hr
    obtain ⟨r0, hr0, rfl⟩ := hr
    rw [List.length_drop, hL r0 hr0]
  · intro pr hpr t ht
    rw [input_array, target_array, List.zip_map', List.mem_map] at hpr
    obtain ⟨r0, hr0, rfl⟩ := hpr
    have hlen := hL r0 hr0
    rw [List.getElem?_drop, List.getElem?_dropLast, if_pos (by omega)]
    congr 1
    omega

/-- Witness for C9 on the concrete array `[[1,2,3],[4,5,6]]` with `L = 3`. -/
theorem C9_input_target_shift_witness :
    (∀ r ∈ [[1, 2, 3], [4, 5, 6]], r.length = 3) ∧
    ((∀ r ∈ input_array [[1, 2, 3], [4, 5, 6]], r.length = 3 - 1) ∧
    (∀ r ∈ target_array [[1, 2, 3], [4, 5, 6]], r.length = 3 - 1) ∧
    (∀ pr ∈ (input_array [[1, 2, 3], [4, 5, 6]]).zip
        (target_array [[1, 2, 3], [4, 5, 6]]), ∀ t, t + 1 < 3 - 1 →
      pr.2[t]? = pr.1[t + 1]?)) :=
  ⟨by decide, C9_input_target_shift [[1, 2, 3], [4, 5, 6]] 3 (by decide)⟩

/-- **C10 (counterexample).** The sentence `["the", "cat"]` passes the
stop-word filter (the word `"cat"` is not a stop word), yet no position the
loop can sample — `random.randint(0, len(words)-2)` only reaches positions
`0..len(words)-2`, here just position 0 — holds a non-stop word, so the
rejection-sampling loop never terminates: every run over in-range draws
returns nothing. -/
theorem C10_sampling_counterexample :
    passesFilter ["the", "cat"] = true ∧
    eligiblePositions ["the", "cat"] = [] ∧
    sampleLoop ["the", "cat"] (List.replicate 5 0) = none := by
  refine ⟨rfl, rfl, rfl⟩

/-- **C10 (amended).** The loop terminates as soon as some draw of the
random stream lands on a non-stop word; in particular a sentence with a
non-stop word at a position the sampler can reach (`0..len(words)-2`) makes
termination possible, whereas a sentence passing the filter only through its
last word does not. -/
theorem C10_sampling_terminates (words : List String) (draws : List Nat)
    (h : ∃ d ∈ draws, isStopWord (words.getD d "") = false) :
    (sampleLoop words draws).isSome = true := by
  induction draws with
  | nil => simp at h
  | cons d ds ih =>
    obtain ⟨d0, hd0, hstop⟩ := h
    rw [sampleLoop]
    by_cases hcase : isStopWord (words.getD d "") = true
    · rw [if_pos hcase]
      apply ih
      rcases List.mem_cons.mp hd0 with heq | hmem
      · subst heq
        rw [hcase] at hstop
        cases hstop
      · exact ⟨d0, hmem, hstop⟩
    · rw [if_neg hcase]
      rfl

/-- Witness for C10 (amended): the draw stream `[0, 1]` on
`["the", "cat", "sat"]` reaches the non-stop word `"cat"` at position 1. -/
theorem C10_sampling_terminates_witness :
    (∃ d ∈ [0, 1], isStopWord (["the", "cat", "sat"].getD d "") = false) ∧
    (sampleLoop ["the", "cat", "sat"] [0, 1]).isSome = true :=
  ⟨by decide, C10_sampling_terminates ["the", "cat", "sat"] [0, 1] (by decide)⟩

end LexSub
